import Mathlib

/-!
Shallow embedding of the framebot plugin module (`framebot/plugins.py`):
the best-of reposting queue (`BestOfReposter`), the mirrored-frame poster
(`MirroredFramePoster`) and the plugin dependency contract declared on
`FramebotPlugin`.

Side effects (Facebook uploads, file copies and removals, JSON queue
persistence, sleeps and the log lines that carry information) are recorded
in an explicit event trace.  The file system is modelled as the list of
existing paths.  Exceptions of the two external calls
(`FacebookHelper.upload_photo`, `shutil.copyfile`) are injected by an
oracle `Env`, while `os.remove` raises exactly when its argument is
missing, as in Python.  Wall-clock time is passed explicitly (`now`);
times and time deltas are integers measured in seconds, so Python's
float floor-division by 3600 is integer division and halving a
`timedelta` is integer division by two (exact at this granularity).
-/

namespace Framebot

/-- One frame record (`model.FacebookFrame`), as used by the plugins:
sequence number, path of the local image file, caption text, post url,
story id, post timestamp and refreshed total reaction count. -/
structure FacebookFrame where
  number : Nat
  local_file : String
  text : String
  url : String
  story_id : String
  post_time : ℤ
  reactions_total : Int
deriving DecidableEq

/-- Observable side effects of the plugin code, recorded in order. -/
inductive Event where
  | uploadPhoto (file message albumId : String)
  | copyFile (src dst : String)
  | removeFile (file : String)
  | jsonDump (queue : List FacebookFrame)
  | logMissing (file : String)
  | logWarning
  | checked (frame : FacebookFrame)
  | sleep (seconds : ℤ)
deriving DecidableEq

/-- Failure oracle: `fails n` tells whether the `n`-th fallible external
call of a pass (an `upload_photo` or a `shutil.copyfile`) raises. -/
structure Env where
  fails : Nat → Bool

/-- Environment in which no external call raises. -/
def happyEnv : Env := ⟨fun _ => false⟩

/-- Immutable configuration of a `BestOfReposter` instance. -/
structure BestOfConfig where
  album_id : String
  reactions_threshold : Int
  album_path : String
  frames_dir : String
deriving DecidableEq

/-- Mutable state of a `BestOfReposter` together with the world it
touches: the time threshold (halved by `_handle_quicker`), the in-memory
queue `yet_to_check`, the set of existing files, the queue contents last
written to `yet_to_check_file`, and the event trace. -/
structure BestOfState where
  time_threshold : ℤ
  yet_to_check : List FacebookFrame
  files : List String
  fileQueue : List FacebookFrame
  trace : List Event
deriving DecidableEq

/-- The best-of caption (`plugins.py` line 146): elapsed whole hours,
reaction count, original url and text.  Python's float floor-division by
3600 is integer division here. -/
def bestOfMessage (elapsed : ℤ) (reactions : Int) (u t : String) : String :=
  "Reactions after " ++ toString (elapsed / 3600) ++ " hours : " ++
    toString reactions ++ ".\n" ++ "Original post: " ++ u ++ "\n\n" ++ t

/-- Destination of the archived copy (`plugins.py` lines 152-156). -/
def albumCopyName (cfg : BestOfConfig) (f : FacebookFrame) : String :=
  cfg.album_path ++ "/" ++ "Frame " ++ toString f.number ++ " id " ++
    f.story_id ++ " reactions " ++ toString f.reactions_total

/-- The body of one eligible-entry check (`plugins.py` lines 144-161),
up to but not including the pop.  Returns the new file set, the events
produced and the next fallible-call index, or the events produced before
an exception.  `upload_photo` and `copyfile` raise when the oracle says
so; `os.remove` raises exactly when the file is missing. -/
def processEntry (env : Env) (cfg : BestOfConfig) (elapsed : ℤ)
    (f : FacebookFrame) (files : List String) (op : Nat) :
    Except (List Event) (List String × List Event × Nat) :=
  if f.reactions_total > cfg.reactions_threshold then
    if f.local_file ∈ files then
      if env.fails op then Except.error []
      else
        if env.fails (op + 1) then
          Except.error [Event.uploadPhoto f.local_file
            (bestOfMessage elapsed f.reactions_total f.url f.text) cfg.album_id]
        else
          Except.ok (albumCopyName cfg f :: files,
            [Event.uploadPhoto f.local_file
               (bestOfMessage elapsed f.reactions_total f.url f.text) cfg.album_id,
             Event.copyFile f.local_file (albumCopyName cfg f)], op + 2)
    else Except.ok (files, [Event.logMissing f.local_file], op)
  else
    if f.local_file ∈ files then
      Except.ok (files.erase f.local_file, [Event.removeFile f.local_file], op)
    else Except.error []

/-- Result of the `while` loop of `_advance_bests`: remaining queue,
file set, events, the `modified` flag and whether an exception escaped
the loop (to be caught by the surrounding `except`). -/
structure LoopOut where
  queue : List FacebookFrame
  files : List String
  events : List Event
  modified : Bool
  raised : Bool
deriving DecidableEq

/-- The `while` loop of `_advance_bests` (`plugins.py` lines 136-164):
peek the head; stop when it is not yet eligible; otherwise check it,
pop it and persist the popped queue, until the queue is empty, the head
is too recent, or an exception aborts the loop. -/
def advanceLoop (env : Env) (cfg : BestOfConfig) (th now : ℤ) :
    List FacebookFrame → List String → Nat → LoopOut
  | [], files, _ => ⟨[], files, [], false, false⟩
  | f :: rest, files, op =>
    if now - f.post_time < th then ⟨f :: rest, files, [], false, false⟩
    else
      match processEntry env cfg (now - f.post_time) f files op with
      | Except.error evs => ⟨f :: rest, files, Event.checked f :: evs, false, true⟩
      | Except.ok (files2, evs, op2) =>
        let r := advanceLoop env cfg th now rest files2 op2
        ⟨r.queue, r.files, Event.checked f :: (evs ++ Event.jsonDump rest :: r.events),
          true, r.raised⟩

/-- Events emitted by one full call of `_advance_bests`: the loop events,
the warning logged by the `except` clause when the loop raised, and the
defensive `finally` re-dump when at least one pop happened. -/
def advanceBestsEvents (env : Env) (cfg : BestOfConfig) (now : ℤ)
    (s : BestOfState) : List Event :=
  let r := advanceLoop env cfg s.time_threshold now s.yet_to_check s.files 0
  r.events ++ (if r.raised then [Event.logWarning] else []) ++
    (if r.modified then [Event.jsonDump r.queue] else [])

/-- `BestOfReposter._advance_bests` (`plugins.py` lines 128-170).  Any
exception of the loop is caught (`except Exception`), so the operation
always returns a state. -/
def advanceBests (env : Env) (cfg : BestOfConfig) (now : ℤ)
    (s : BestOfState) : BestOfState :=
  let r := advanceLoop env cfg s.time_threshold now s.yet_to_check s.files 0
  { s with
    yet_to_check := r.queue
    files := r.files
    fileQueue := if r.modified then r.queue else s.fileQueue
    trace := s.trace ++ advanceBestsEvents env cfg now s }

/-- `Path.name`: the final component of a slash-separated path. -/
def baseName (p : String) : String := (p.splitOn "/").getLastD p

/-- The holding-directory path of the private copy made on enqueue
(`plugins.py` line 180). -/
def newLocalPath (cfg : BestOfConfig) (frame : FacebookFrame) : String :=
  cfg.frames_dir ++ "/" ++ baseName frame.local_file

/-- `BestOfReposter._queue_frame_for_check` (`plugins.py` lines 172-184):
shallow-copy the frame, copy its file into the holding directory, point
the clone at that copy, append to the queue tail and persist. -/
def queueFrameForCheck (cfg : BestOfConfig) (frame : FacebookFrame)
    (s : BestOfState) : BestOfState :=
  let clone : FacebookFrame := { frame with local_file := newLocalPath cfg frame }
  { s with
    yet_to_check := s.yet_to_check ++ [clone]
    files := newLocalPath cfg frame :: s.files
    fileQueue := s.yet_to_check ++ [clone]
    trace := s.trace ++ [Event.copyFile frame.local_file (newLocalPath cfg frame),
                         Event.jsonDump (s.yet_to_check ++ [clone])] }

/-- The drain loop of `_handle_quicker` (`plugins.py` lines 192-198):
while the queue is non-empty, run one advance pass (consuming one
wall-clock reading) and sleep an hour if entries remain.  `none` means
the supplied wall-clock readings ran out with the loop still running. -/
def quickLoop (env : Env) (cfg : BestOfConfig) :
    List ℤ → BestOfState → Option BestOfState
  | [], s => if s.yet_to_check.isEmpty then some s else none
  | now :: rest, s =>
    if s.yet_to_check.isEmpty then some s
    else
      let s1 := advanceBests env cfg now s
      let s2 := if s1.yet_to_check.isEmpty then s1
                else { s1 with trace := s1.trace ++ [Event.sleep 3600] }
      quickLoop env cfg rest s2

/-- `BestOfReposter._handle_quicker` (`plugins.py` lines 186-198): halve
the time threshold, then drain. -/
def handleQuicker (env : Env) (cfg : BestOfConfig) (nows : List ℤ)
    (s : BestOfState) : Option BestOfState :=
  quickLoop env cfg nows { s with time_threshold := s.time_threshold / 2 }

/-- `BestOfReposter.before_frame_upload` (`plugins.py` lines 203-204). -/
def beforeFrameUpload (env : Env) (cfg : BestOfConfig) (now : ℤ)
    (_frame : FacebookFrame) (s : BestOfState) : BestOfState :=
  advanceBests env cfg now s

/-- `BestOfReposter.after_frame_upload` (`plugins.py` lines 206-207). -/
def afterFrameUpload (cfg : BestOfConfig) (frame : FacebookFrame)
    (s : BestOfState) : BestOfState :=
  queueFrameForCheck cfg frame s

/-- `BestOfReposter.after_upload_loop` (`plugins.py` lines 209-210). -/
def afterUploadLoop (env : Env) (cfg : BestOfConfig) (nows : List ℤ)
    (s : BestOfState) : Option BestOfState :=
  handleQuicker env cfg nows s

/-- Eligibility of a queue entry at wall-clock time `now`: the loop
proceeds past the head exactly when `¬ (now - post_time < threshold)`. -/
def eligibleB (th now : ℤ) (f : FacebookFrame) : Bool :=
  decide (th ≤ now - f.post_time)

/-- The frames of the `checked` events of a trace, in order. -/
def checkedOf : Event → Option FacebookFrame
  | Event.checked f => some f
  | _ => none

/-- The queue snapshots of the `jsonDump` events of a trace, in order. -/
def dumpOf : Event → Option (List FacebookFrame)
  | Event.jsonDump q => some q
  | _ => none

/-- Frames evaluated (line 143 onwards) during a trace. -/
def checkedFrames (evs : List Event) : List FacebookFrame :=
  evs.filterMap checkedOf

/-- Queue snapshots persisted during a trace. -/
def dumpedQueues (evs : List Event) : List (List FacebookFrame) :=
  evs.filterMap dumpOf

/-- Recognizes a best-of upload event. -/
def isUpload : Event → Bool
  | Event.uploadPhoto _ _ _ => true
  | _ => false

/-- Traces made only of external effects: no `checked`, no `jsonDump`,
no `sleep` events. -/
def plainEvents (evs : List Event) : Prop :=
  checkedFrames evs = [] ∧ dumpedQueues evs = [] ∧ ∀ t : ℤ, Event.sleep t ∉ evs

theorem processEntry_error_plain (env : Env) (cfg : BestOfConfig) (elapsed : ℤ)
    (f : FacebookFrame) (files : List String) (op : Nat) (evs : List Event)
    (h : processEntry env cfg elapsed f files op = Except.error evs) :
    plainEvents evs := by
  unfold processEntry at h
  split_ifs at h <;> cases h <;>
    exact ⟨rfl, rfl, fun t ht => by simp at ht⟩

theorem processEntry_ok_plain (env : Env) (cfg : BestOfConfig) (elapsed : ℤ)
    (f : FacebookFrame) (files : List String) (op : Nat)
    (files2 : List String) (evs : List Event) (op2 : Nat)
    (h : processEntry env cfg elapsed f files op = Except.ok (files2, evs, op2)) :
    plainEvents evs := by
  unfold processEntry at h
  split_ifs at h <;> cases h <;>
    exact ⟨rfl, rfl, fun t ht => by simp at ht⟩

theorem advanceLoop_nil (env : Env) (cfg : BestOfConfig) (th now : ℤ)
    (files : List String) (op : Nat) :
    advanceLoop env cfg th now [] files op = ⟨[], files, [], false, false⟩ := rfl

theorem advanceLoop_cons_stop (env : Env) (cfg : BestOfConfig) (th now : ℤ)
    (f : FacebookFrame) (rest : List FacebookFrame) (files : List String) (op : Nat)
    (hlt : now - f.post_time < th) :
    advanceLoop env cfg th now (f :: rest) files op
      = ⟨f :: rest, files, [], false, false⟩ := by
  simp [advanceLoop, hlt]

theorem advanceLoop_cons_error (env : Env) (cfg : BestOfConfig) (th now : ℤ)
    (f : FacebookFrame) (rest : List FacebookFrame) (files : List String) (op : Nat)
    (evs : List Event)
    (hlt : ¬ now - f.post_time < th)
    (hpe : processEntry env cfg (now - f.post_time) f files op = Except.error evs) :
    advanceLoop env cfg th now (f :: rest) files op
      = ⟨f :: rest, files, Event.checked f :: evs, false, true⟩ := by
  simp [advanceLoop, hlt, hpe]

theorem advanceLoop_cons_ok (env : Env) (cfg : BestOfConfig) (th now : ℤ)
    (f : FacebookFrame) (rest : List FacebookFrame) (files : List String) (op : Nat)
    (files2 : List String) (evs : List Event) (op2 : Nat)
    (hlt : ¬ now - f.post_time < th)
    (hpe : processEntry env cfg (now - f.post_time) f files op = Except.ok (files2, evs, op2)) :
    advanceLoop env cfg th now (f :: rest) files op
      = ⟨(advanceLoop env cfg th now rest files2 op2).queue,
         (advanceLoop env cfg th now rest files2 op2).files,
         Event.checked f ::
           (evs ++ Event.jsonDump rest :: (advanceLoop env cfg th now rest files2 op2).events),
         true,
         (advanceLoop env cfg th now rest files2 op2).raised⟩ := by
  simp [advanceLoop, hlt, hpe]

/-- Structure of one draining pass: some prefix of `k` entries is popped
(`queue = drop k`), the `modified` flag records whether `k > 0`, the
evaluated entries are exactly the first `k` (plus the failing one when an
exception aborted the loop) and all of them are eligible, the persisted
snapshots are exactly the queues after each pop, an exception-free pass
pops exactly the eligible prefix, and the loop never sleeps. -/
theorem advanceLoop_structure (env : Env) (cfg : BestOfConfig) (th now : ℤ) :
    ∀ (q : List FacebookFrame) (files : List String) (op : Nat),
    ∃ k : Nat,
      (advanceLoop env cfg th now q files op).queue = q.drop k ∧
      (advanceLoop env cfg th now q files op).modified = decide (0 < k) ∧
      checkedFrames (advanceLoop env cfg th now q files op).events
        = q.take (k + (if (advanceLoop env cfg th now q files op).raised then 1 else 0)) ∧
      (∀ f ∈ q.take (k + (if (advanceLoop env cfg th now q files op).raised then 1 else 0)),
          th ≤ now - f.post_time) ∧
      dumpedQueues (advanceLoop env cfg th now q files op).events
        = (List.range k).map (fun i => q.drop (i + 1)) ∧
      ((advanceLoop env cfg th now q files op).raised = false →
          (advanceLoop env cfg th now q files op).queue = q.dropWhile (eligibleB th now)) ∧
      (∀ t : ℤ, Event.sleep t ∉ (advanceLoop env cfg th now q files op).events) := by
  intro q
  induction q with
  | nil =>
    intro files op
    refine ⟨0, ?_⟩
    simp [advanceLoop_nil, checkedFrames, dumpedQueues]
  | cons f rest ih =>
    intro files op
    by_cases hlt : now - f.post_time < th
    · refine ⟨0, ?_⟩
      have hel : eligibleB th now f = false := by
        simp [eligibleB, not_le.mpr hlt]
      simp [advanceLoop_cons_stop env cfg th now f rest files op hlt,
        checkedFrames, dumpedQueues, List.dropWhile, hel]
    · have helig : th ≤ now - f.post_time := not_lt.mp hlt
      rcases hpe : processEntry env cfg (now - f.post_time) f files op with evs | ⟨files2, evs, op2⟩
      · have hpl := processEntry_error_plain env cfg _ f files op evs hpe
        rw [advanceLoop_cons_error env cfg th now f rest files op evs hlt hpe]
        refine ⟨0, rfl, rfl, ?_, ?_, ?_, ?_, ?_⟩
        · simpa [checkedFrames, checkedOf] using hpl.1
        · intro g hg
          have : g = f := by simpa using hg
          subst this
          exact helig
        · simpa [dumpedQueues, dumpOf] using hpl.2.1
        · intro hcontra
          cases hcontra
        · intro t ht
          rcases List.mem_cons.mp ht with h1 | h2
          · cases h1
          · exact hpl.2.2 t h2
      · have hpl := processEntry_ok_plain env cfg _ f files op files2 evs op2 hpe
        obtain ⟨k, hq, hm, hc, he, hd, hok, hs⟩ := ih files2 op2
        rw [advanceLoop_cons_ok env cfg th now f rest files op files2 evs op2 hlt hpe]
        refine ⟨k + 1, ?_, ?_, ?_, ?_, ?_, ?_, ?_⟩
        · simpa using hq
        · simp
        · have harith : k + 1 + (if (advanceLoop env cfg th now rest files2 op2).raised then 1 else 0)
              = (k + (if (advanceLoop env cfg th now rest files2 op2).raised then 1 else 0)) + 1 := by
            omega
          have e1 : checkedFrames (Event.checked f ::
                (evs ++ Event.jsonDump rest :: (advanceLoop env cfg th now rest files2 op2).events))
              = f :: (checkedFrames evs ++
                  checkedFrames (advanceLoop env cfg th now rest files2 op2).events) := by
            simp [checkedFrames, List.filterMap_cons, List.filterMap_append, checkedOf]
          rw [e1, hpl.1, hc, harith, List.take_succ_cons]
          simp
        · intro g hg
          have harith : k + 1 + (if (advanceLoop env cfg th now rest files2 op2).raised then 1 else 0)
              = (k + (if (advanceLoop env cfg th now rest files2 op2).raised then 1 else 0)) + 1 := by
            omega
          rw [harith, List.take_succ_cons] at hg
          rcases List.mem_cons.mp hg with h1 | h2
          · cases h1; exact helig
          · exact he g h2
        · have e1 : dumpedQueues (Event.checked f ::
                (evs ++ Event.jsonDump rest :: (advanceLoop env cfg th now rest files2 op2).events))
              = dumpedQueues evs ++
                  rest :: dumpedQueues (advanceLoop env cfg th now rest files2 op2).events := by
            simp [dumpedQueues, List.filterMap_cons, List.filterMap_append, dumpOf]
          rw [e1, hpl.2.1, hd]
          simp [List.range_succ_eq_map, List.map_map, Function.comp]
        · intro hr
          have := hok hr
          rw [this]
          have hel : eligibleB th now f = true := by simp [eligibleB, helig]
          simp [List.dropWhile, hel]
        · intro t ht
          rcases List.mem_cons.mp ht with h1 | h2
          · cases h1
          · rcases List.mem_append.mp h2 with h3 | h4
            · exact hpl.2.2 t h3
            · rcases List.mem_cons.mp h4 with h5 | h6
              · cases h5
              · exact hs t h6

theorem advanceBests_yet_to_check (env : Env) (cfg : BestOfConfig) (now : ℤ)
    (s : BestOfState) :
    (advanceBests env cfg now s).yet_to_check
      = (advanceLoop env cfg s.time_threshold now s.yet_to_check s.files 0).queue := rfl

theorem advanceBests_time_threshold (env : Env) (cfg : BestOfConfig) (now : ℤ)
    (s : BestOfState) :
    (advanceBests env cfg now s).time_threshold = s.time_threshold := rfl

theorem advanceBests_trace (env : Env) (cfg : BestOfConfig) (now : ℤ)
    (s : BestOfState) :
    (advanceBests env cfg now s).trace = s.trace ++ advanceBestsEvents env cfg now s := rfl

theorem checkedFrames_advanceBestsEvents (env : Env) (cfg : BestOfConfig) (now : ℤ)
    (s : BestOfState) :
    checkedFrames (advanceBestsEvents env cfg now s)
      = checkedFrames (advanceLoop env cfg s.time_threshold now s.yet_to_check s.files 0).events := by
  simp only [advanceBestsEvents]
  split_ifs <;> simp [checkedFrames, List.filterMap_append, checkedOf]

theorem dumpedQueues_advanceBestsEvents (env : Env) (cfg : BestOfConfig) (now : ℤ)
    (s : BestOfState) :
    dumpedQueues (advanceBestsEvents env cfg now s)
      = dumpedQueues (advanceLoop env cfg s.time_threshold now s.yet_to_check s.files 0).events ++
          (if (advanceLoop env cfg s.time_threshold now s.yet_to_check s.files 0).modified then
            [(advanceLoop env cfg s.time_threshold now s.yet_to_check s.files 0).queue] else []) := by
  simp only [advanceBestsEvents]
  split_ifs <;> simp_all [dumpedQueues, List.filterMap_append, dumpOf]

theorem sleep_not_mem_advanceBestsEvents (env : Env) (cfg : BestOfConfig) (now : ℤ)
    (s : BestOfState) (t : ℤ) :
    Event.sleep t ∉ advanceBestsEvents env cfg now s := by
  intro ht
  obtain ⟨k, hq, hm, hc, he, hd, hok, hs⟩ :=
    advanceLoop_structure env cfg s.time_threshold now s.yet_to_check s.files 0
  simp only [advanceBestsEvents] at ht
  split_ifs at ht <;> simp [List.mem_append] at ht <;> exact hs t ht

/-- One `_advance_bests` call, seen from the state: some prefix of `k`
eligible entries is popped, every evaluated entry is eligible, the
evaluated entries form a prefix of the queue, the persisted snapshots are
the queue after each pop plus the defensive end-of-pass re-dump when at
least one pop happened, and an exception-free pass pops exactly the
eligible prefix. -/
theorem advanceBests_structure (env : Env) (cfg : BestOfConfig) (now : ℤ)
    (s : BestOfState) :
    ∃ k : Nat,
      (advanceBests env cfg now s).yet_to_check = s.yet_to_check.drop k ∧
      (∀ f ∈ s.yet_to_check.take k, s.time_threshold ≤ now - f.post_time) ∧
      (∀ f, Event.checked f ∈ advanceBestsEvents env cfg now s →
          s.time_threshold ≤ now - f.post_time) ∧
      checkedFrames (advanceBestsEvents env cfg now s) <+: s.yet_to_check ∧
      dumpedQueues (advanceBestsEvents env cfg now s)
        = ((List.range k).map fun i => s.yet_to_check.drop (i + 1)) ++
            (if k = 0 then [] else [s.yet_to_check.drop k]) ∧
      ((advanceLoop env cfg s.time_threshold now s.yet_to_check s.files 0).raised = false →
          (advanceBests env cfg now s).yet_to_check
            = s.yet_to_check.dropWhile (eligibleB s.time_threshold now)) := by
  obtain ⟨k, hq, hm, hc, he, hd, hok, hs⟩ :=
    advanceLoop_structure env cfg s.time_threshold now s.yet_to_check s.files 0
  refine ⟨k, ?_, ?_, ?_, ?_, ?_, ?_⟩
  · rw [advanceBests_yet_to_check, hq]
  · intro f hf
    set i := (if (advanceLoop env cfg s.time_threshold now s.yet_to_check s.files 0).raised
        then 1 else 0) with hi
    have hmem : f ∈ (s.yet_to_check.take (k + i)).take k := by
      rw [List.take_take, min_eq_left (by omega)]
      exact hf
    exact he f (List.mem_of_mem_take hmem)
  · intro f hf
    have hf1 : f ∈ checkedFrames (advanceBestsEvents env cfg now s) :=
      List.mem_filterMap.mpr ⟨Event.checked f, hf, rfl⟩
    rw [checkedFrames_advanceBestsEvents, hc] at hf1
    exact he f hf1
  · rw [checkedFrames_advanceBestsEvents, hc]
    exact List.take_prefix _ _
  · rw [dumpedQueues_advanceBestsEvents, hd]
    by_cases hk : k = 0
    · subst hk
      simp at hm
      simp [hm]
    · have hpos : 0 < k := Nat.pos_of_ne_zero hk
      have hm' : (advanceLoop env cfg s.time_threshold now s.yet_to_check s.files 0).modified
          = true := by rw [hm]; simp [hpos]
      simp [hm', hk, hq]
  · intro hr
    rw [advanceBests_yet_to_check]
    exact hok hr

/-- Sample configuration for the concrete instances below: reactions
threshold 100, as in the spec scenario. -/
def cfgS : BestOfConfig := ⟨"42", 100, "albums/T", "frames/T"⟩

/-- Sample queued frame with reactions above the threshold. -/
def frameHigh : FacebookFrame := ⟨1, "frames/T/1.jpg", "txt1", "url1", "sid1", 0, 150⟩

/-- Sample queued frame with reactions below the threshold. -/
def frameLow : FacebookFrame := ⟨2, "frames/T/2.jpg", "txt2", "url2", "sid2", 0, 50⟩

/-- One-hour time threshold, high-reaction entry, stored copy present. -/
def stateHigh : BestOfState := ⟨3600, [frameHigh], ["frames/T/1.jpg"], [frameHigh], []⟩

/-- One-hour time threshold, low-reaction entry, stored copy present. -/
def stateLow : BestOfState := ⟨3600, [frameLow], ["frames/T/2.jpg"], [frameLow], []⟩

/-- One-hour time threshold, high-reaction entry, stored copy missing. -/
def stateHighMissing : BestOfState := ⟨3600, [frameHigh], [], [frameHigh], []⟩

/-- One-hour time threshold, low-reaction entry, stored copy missing. -/
def stateLowMissing : BestOfState := ⟨3600, [frameLow], [], [frameLow], []⟩

/-- Empty queue. -/
def stateEmpty : BestOfState := ⟨3600, [], [], [], []⟩

/-- Claim C10: invoking the advance operation (also via the
`before_frame_upload` hook) on an empty Pending Evaluation Queue is a
no-op: the returned state — queue, file system, persisted queue file and
trace — is exactly the input state, so no upload or deletion is
attempted and the queue file is not rewritten. -/
theorem claim10_advance_empty_noop (env : Env) (cfg : BestOfConfig) (now : ℤ)
    (frame : FacebookFrame) (s : BestOfState) (h : s.yet_to_check = []) :
    advanceBests env cfg now s = s ∧ beforeFrameUpload env cfg now frame s = s := by
  obtain ⟨th, q, fl, fq, tr⟩ := s
  simp only at h
  subst h
  constructor <;>
    simp [advanceBests, beforeFrameUpload, advanceBestsEvents, advanceLoop]

/-- Witness for C10 at a concrete empty-queue state. -/
theorem claim10_witness :
    advanceBests happyEnv cfgS 0 stateEmpty = stateEmpty ∧
    beforeFrameUpload happyEnv cfgS 0 frameHigh stateEmpty = stateEmpty :=
  claim10_advance_empty_noop happyEnv cfgS 0 frameHigh stateEmpty rfl

/-- Claim C2: a call to the advance operation never evaluates (nor, a
fortiori, pops) an entry whose elapsed time since `post_time` is
strictly below the time threshold: every `checked` entry satisfies
`threshold ≤ now - post_time`, and the evaluated entries form a prefix
of the queue, so the pass stops at the first ineligible head and
evaluates in FIFO order. -/
theorem claim2_only_eligible_prefix_evaluated (env : Env) (cfg : BestOfConfig)
    (now : ℤ) (s : BestOfState) :
    (∀ f, Event.checked f ∈ advanceBestsEvents env cfg now s →
        s.time_threshold ≤ now - f.post_time) ∧
    checkedFrames (advanceBestsEvents env cfg now s) <+: s.yet_to_check := by
  obtain ⟨k, h1, h2, h3, h4, h5, h6⟩ := advanceBests_structure env cfg now s
  exact ⟨h3, h4⟩

/-- Witness for C2: the entry evaluated in a concrete pass is eligible. -/
theorem claim2_witness :
    (3600 : ℤ) ≤ 7200 - frameHigh.post_time ∧
    checkedFrames (advanceBestsEvents happyEnv cfgS 7200 stateHigh) <+: stateHigh.yet_to_check :=
  ⟨(claim2_only_eligible_prefix_evaluated happyEnv cfgS 7200 stateHigh).1 frameHigh (by decide),
   (claim2_only_eligible_prefix_evaluated happyEnv cfgS 7200 stateHigh).2⟩

/-- Claim C1 as stated is false on the code: an eligible entry (elapsed
time `10000 ≥ 3600`) whose reactions do not exceed the threshold and
whose stored local copy is missing is NOT removed by the advance call —
`os.remove` raises, the exception is caught, and the entry is still in
the queue afterwards. -/
theorem claim1_counterexample :
    (3600 : ℤ) ≤ 10000 - frameLow.post_time ∧
    stateLowMissing.yet_to_check = [frameLow] ∧
    stateLowMissing.time_threshold = 3600 ∧
    (advanceBests happyEnv cfgS 10000 stateLowMissing).yet_to_check = [frameLow] := by
  decide

/-- Claim C1 (amended): in any pass only eligible entries are popped,
each exactly once and in order (the queue becomes `drop k` of itself);
when no step raises, exactly the whole eligible prefix is popped; an
eligible entry with reactions above the threshold whose stored local
copy is missing is still popped, with the upload skipped and logged; but
an eligible entry with reactions not above the threshold whose stored
copy is missing makes the deletion raise, and the caught exception ends
the pass with that entry still at the head of the queue (kept for a
later pass — not lost, not duplicated) instead of popping it. -/
theorem claim1_amended (env : Env) (cfg : BestOfConfig) (now : ℤ) (s : BestOfState) :
    (∃ k : Nat, (advanceBests env cfg now s).yet_to_check = s.yet_to_check.drop k ∧
        ∀ f ∈ s.yet_to_check.take k, s.time_threshold ≤ now - f.post_time) ∧
    ((advanceLoop env cfg s.time_threshold now s.yet_to_check s.files 0).raised = false →
        (advanceBests env cfg now s).yet_to_check
          = s.yet_to_check.dropWhile (eligibleB s.time_threshold now)) ∧
    (∀ f rest, s.yet_to_check = f :: rest →
        s.time_threshold ≤ now - f.post_time →
        f.reactions_total > cfg.reactions_threshold →
        f.local_file ∉ s.files →
        Event.logMissing f.local_file ∈ advanceBestsEvents happyEnv cfg now s ∧
        ∃ k : Nat, (advanceBests happyEnv cfg now s).yet_to_check = rest.drop k) ∧
    (∀ f rest, s.yet_to_check = f :: rest →
        s.time_threshold ≤ now - f.post_time →
        ¬ f.reactions_total > cfg.reactions_threshold →
        f.local_file ∉ s.files →
        (advanceBests env cfg now s).yet_to_check = f :: rest ∧
        Event.logWarning ∈ advanceBestsEvents env cfg now s) := by
  obtain ⟨k0, h1, h2, h3, h4, h5, h6⟩ := advanceBests_structure env cfg now s
  refine ⟨⟨k0, h1, h2⟩, h6, ?_, ?_⟩
  · intro f rest hq helig hrt hmiss
    have hlt : ¬ now - f.post_time < s.time_threshold := not_lt.mpr helig
    have hpe : processEntry happyEnv cfg (now - f.post_time) f s.files 0
        = Except.ok (s.files, [Event.logMissing f.local_file], 0) := by
      unfold processEntry
      rw [if_pos hrt, if_neg hmiss]
    have hLoop := advanceLoop_cons_ok happyEnv cfg s.time_threshold now f rest s.files 0
        s.files [Event.logMissing f.local_file] 0 hlt hpe
    constructor
    · simp only [advanceBestsEvents, hq, hLoop]
      simp
    · obtain ⟨k, hk, _, _, _, _, _, _⟩ :=
        advanceLoop_structure happyEnv cfg s.time_threshold now rest s.files 0
      refine ⟨k, ?_⟩
      rw [advanceBests_yet_to_check, hq, hLoop]
      exact hk
  · intro f rest hq helig hrt hmiss
    have hlt : ¬ now - f.post_time < s.time_threshold := not_lt.mpr helig
    have hpe : processEntry env cfg (now - f.post_time) f s.files 0
        = Except.error [] := by
      unfold processEntry
      rw [if_neg hrt, if_neg hmiss]
    have hLoop := advanceLoop_cons_error env cfg s.time_threshold now f rest s.files 0
        [] hlt hpe
    constructor
    · rw [advanceBests_yet_to_check, hq, hLoop]
    · simp only [advanceBestsEvents, hq, hLoop]
      simp

/-- Witness for the amended C1: a concrete eligible high-reaction entry
with a missing stored copy is still popped, and the skipped upload is
logged. -/
theorem claim1_witness :
    Event.logMissing frameHigh.local_file
        ∈ advanceBestsEvents happyEnv cfgS 10000 stateHighMissing ∧
    ∃ k : Nat,
      (advanceBests happyEnv cfgS 10000 stateHighMissing).yet_to_check
        = List.drop k ([] : List FacebookFrame) :=
  (claim1_amended happyEnv cfgS 10000 stateHighMissing).2.2.1 frameHigh [] rfl
    (by decide) (by decide) (by decide)

/-- Claim C3 as stated is false on the code: this eligible entry has
reactions strictly above the threshold, the advance call pops it, and
yet nothing is reposted, because its stored local copy is missing — so
"reposts iff reactions_total > threshold" fails in the "if" direction. -/
theorem claim3_counterexample :
    (3600 : ℤ) ≤ 10000 - frameHigh.post_time ∧
    frameHigh.reactions_total > cfgS.reactions_threshold ∧
    (advanceBests happyEnv cfgS 10000 stateHighMissing).yet_to_check = [] ∧
    (advanceBestsEvents happyEnv cfgS 10000 stateHighMissing).filter isUpload = [] := by
  decide

/-- Claim C3 (amended): when the advance operation pops an eligible
entry, it reposts the entry's stored local copy — with the caption built
from elapsed hours, reaction count, original url and text, and an
archived local copy — if and only if `reactions_total` strictly exceeds
the reactions threshold AND the stored copy still exists; if the
reactions do not exceed the threshold the stored copy is deleted and
nothing is reposted.  (Scenario: with reactions threshold 100 and a
one-hour time threshold, an entry two hours old with 150 reactions is
reposted and removed; with 50 reactions it is deleted and removed
without reposting.) -/
theorem claim3_amended (cfg : BestOfConfig) (now : ℤ) (s : BestOfState)
    (f : FacebookFrame) (rest : List FacebookFrame)
    (hq : s.yet_to_check = f :: rest)
    (helig : s.time_threshold ≤ now - f.post_time) :
    (f.reactions_total > cfg.reactions_threshold → f.local_file ∈ s.files →
        Event.uploadPhoto f.local_file
            (bestOfMessage (now - f.post_time) f.reactions_total f.url f.text)
            cfg.album_id ∈ advanceBestsEvents happyEnv cfg now s ∧
        Event.copyFile f.local_file (albumCopyName cfg f)
            ∈ advanceBestsEvents happyEnv cfg now s ∧
        (advanceBests happyEnv cfg now s).yet_to_check <:+ rest) ∧
    (¬ f.reactions_total > cfg.reactions_threshold → f.local_file ∈ s.files →
        rest = [] →
        (advanceBests happyEnv cfg now s).yet_to_check = [] ∧
        Event.removeFile f.local_file ∈ advanceBestsEvents happyEnv cfg now s ∧
        (advanceBestsEvents happyEnv cfg now s).filter isUpload = []) := by
  have hlt : ¬ now - f.post_time < s.time_threshold := not_lt.mpr helig
  constructor
  · intro hrt hfile
    have hpe : processEntry happyEnv cfg (now - f.post_time) f s.files 0
        = Except.ok (albumCopyName cfg f :: s.files,
            [Event.uploadPhoto f.local_file
               (bestOfMessage (now - f.post_time) f.reactions_total f.url f.text)
               cfg.album_id,
             Event.copyFile f.local_file (albumCopyName cfg f)], 2) := by
      unfold processEntry
      rw [if_pos hrt, if_pos hfile, if_neg (by simp [happyEnv]), if_neg (by simp [happyEnv])]
    have hLoop := advanceLoop_cons_ok happyEnv cfg s.time_threshold now f rest s.files 0
        (albumCopyName cfg f :: s.files)
        [Event.uploadPhoto f.local_file
           (bestOfMessage (now - f.post_time) f.reactions_total f.url f.text)
           cfg.album_id,
         Event.copyFile f.local_file (albumCopyName cfg f)] 2 hlt hpe
    refine ⟨?_, ?_, ?_⟩
    · simp only [advanceBestsEvents, hq, hLoop]
      simp
    · simp only [advanceBestsEvents, hq, hLoop]
      simp
    · obtain ⟨k, hk, _, _, _, _, _, _⟩ :=
        advanceLoop_structure happyEnv cfg s.time_threshold now rest
          (albumCopyName cfg f :: s.files) 2
      rw [advanceBests_yet_to_check, hq, hLoop]
      exact hk ▸ List.drop_suffix k rest
  · intro hrt hfile hrest
    subst hrest
    have hpe : processEntry happyEnv cfg (now - f.post_time) f s.files 0
        = Except.ok (s.files.erase f.local_file, [Event.removeFile f.local_file], 0) := by
      unfold processEntry
      rw [if_neg hrt, if_pos hfile]
    have hLoop := advanceLoop_cons_ok happyEnv cfg s.time_threshold now f [] s.files 0
        (s.files.erase f.local_file) [Event.removeFile f.local_file] 0 hlt hpe
    refine ⟨?_, ?_, ?_⟩
    · rw [advanceBests_yet_to_check, hq, hLoop]
      rfl
    · simp only [advanceBestsEvents, hq, hLoop, advanceLoop_nil]
      simp
    · simp only [advanceBestsEvents, hq, hLoop, advanceLoop_nil]
      simp [isUpload]

/-- Witness for the amended C3: the spec scenario, an entry two hours
old with 150 reactions under threshold 100 and a one-hour time
threshold: reposted (with its caption and archive copy) and removed. -/
theorem claim3_witness :
    Event.uploadPhoto frameHigh.local_file
        (bestOfMessage (7200 - frameHigh.post_time) frameHigh.reactions_total
          frameHigh.url frameHigh.text) cfgS.album_id
        ∈ advanceBestsEvents happyEnv cfgS 7200 stateHigh ∧
    Event.copyFile frameHigh.local_file (albumCopyName cfgS frameHigh)
        ∈ advanceBestsEvents happyEnv cfgS 7200 stateHigh ∧
    (advanceBests happyEnv cfgS 7200 stateHigh).yet_to_check <:+ [] :=
  (claim3_amended cfgS 7200 stateHigh frameHigh [] rfl (by decide)).1
    (by decide) (by decide)

/-- Claim C4: `_advance_bests` catches every exception of its pass (it
totally returns a state by construction — the `except Exception` clause
is part of its embedding), logs a warning when the loop raised, and the
persisted queue file still matches the in-memory queue at the point of
failure: whenever file and queue agree before the call they agree after
it, for every failure oracle. -/
theorem claim4_exceptions_caught_state_persisted (env : Env) (cfg : BestOfConfig)
    (now : ℤ) (s : BestOfState)
    (hsync : s.fileQueue = s.yet_to_check) :
    (advanceBests env cfg now s).fileQueue = (advanceBests env cfg now s).yet_to_check ∧
    ((advanceLoop env cfg s.time_threshold now s.yet_to_check s.files 0).raised = true →
        Event.logWarning ∈ advanceBestsEvents env cfg now s) := by
  obtain ⟨k, hq, hm, hc, he, hd, hok, hs⟩ :=
    advanceLoop_structure env cfg s.time_threshold now s.yet_to_check s.files 0
  constructor
  · show (if (advanceLoop env cfg s.time_threshold now s.yet_to_check s.files 0).modified
        then (advanceLoop env cfg s.time_threshold now s.yet_to_check s.files 0).queue
        else s.fileQueue)
      = (advanceLoop env cfg s.time_threshold now s.yet_to_check s.files 0).queue
    by_cases hmod : (advanceLoop env cfg s.time_threshold now s.yet_to_check s.files 0).modified
        = true
    · rw [if_pos hmod]
    · rw [if_neg hmod]
      rw [hm] at hmod
      have hk : k = 0 := by
        by_contra hne
        exact hmod (by simp [Nat.pos_of_ne_zero hne])
      subst hk
      rw [hq]
      simpa using hsync
  · intro hr
    simp only [advanceBestsEvents, hr]
    simp

/-- Witness for C4: a concrete pass that raises (missing stored copy on
a low-reaction entry) keeps the queue file in sync and logs a warning. -/
theorem claim4_witness :
    (advanceBests happyEnv cfgS 10000 stateLowMissing).fileQueue
      = (advanceBests happyEnv cfgS 10000 stateLowMissing).yet_to_check ∧
    Event.logWarning ∈ advanceBestsEvents happyEnv cfgS 10000 stateLowMissing :=
  ⟨(claim4_exceptions_caught_state_persisted happyEnv cfgS 10000 stateLowMissing rfl).1,
   (claim4_exceptions_caught_state_persisted happyEnv cfgS 10000 stateLowMissing rfl).2
     (by decide)⟩

/-- Claim C5: the queue file is rewritten immediately after every queue
mutation.  The enqueue operation appends exactly one `jsonDump` of the
new queue to the trace and leaves the file in sync; an advance pass that
pops `k` entries dumps the queue state right after each of the `k` pops
and, when `k > 0`, dumps the final queue once more at the end of the
pass (the defensive double-write). -/
theorem claim5_persist_after_every_mutation (env : Env) (cfg : BestOfConfig)
    (now : ℤ) (frame : FacebookFrame) (s : BestOfState) :
    ((queueFrameForCheck cfg frame s).trace
        = s.trace ++ [Event.copyFile frame.local_file (newLocalPath cfg frame),
            Event.jsonDump ((queueFrameForCheck cfg frame s).yet_to_check)] ∧
      (queueFrameForCheck cfg frame s).fileQueue
        = (queueFrameForCheck cfg frame s).yet_to_check) ∧
    (∃ k : Nat,
        (advanceBests env cfg now s).yet_to_check = s.yet_to_check.drop k ∧
        dumpedQueues (advanceBestsEvents env cfg now s)
          = ((List.range k).map fun i => s.yet_to_check.drop (i + 1)) ++
              (if k = 0 then [] else [s.yet_to_check.drop k])) := by
  obtain ⟨k, h1, h2, h3, h4, h5, h6⟩ := advanceBests_structure env cfg now s
  exact ⟨⟨rfl, rfl⟩, k, h1, h5⟩

/-- Claim C6: the `after_frame_upload` hook enqueues a clone of the
frame: the clone's `local_file` points at the private holding-directory
copy (all other fields are unchanged — the original frame record is not
modified, the model being immutable), the file copy into the holding
directory happens, the clone is appended at the tail of the queue, and
the queue is persisted immediately. -/
theorem claim6_enqueue_clones_and_persists (cfg : BestOfConfig) (frame : FacebookFrame)
    (s : BestOfState) :
    afterFrameUpload cfg frame s = queueFrameForCheck cfg frame s ∧
    (afterFrameUpload cfg frame s).yet_to_check
        = s.yet_to_check ++ [{ frame with local_file := newLocalPath cfg frame }] ∧
    (afterFrameUpload cfg frame s).files = newLocalPath cfg frame :: s.files ∧
    Event.copyFile frame.local_file (newLocalPath cfg frame)
        ∈ (afterFrameUpload cfg frame s).trace ∧
    (afterFrameUpload cfg frame s).fileQueue = (afterFrameUpload cfg frame s).yet_to_check ∧
    ({ frame with local_file := newLocalPath cfg frame }).number = frame.number ∧
    ({ frame with local_file := newLocalPath cfg frame }).text = frame.text ∧
    ({ frame with local_file := newLocalPath cfg frame }).url = frame.url ∧
    ({ frame with local_file := newLocalPath cfg frame }).story_id = frame.story_id ∧
    ({ frame with local_file := newLocalPath cfg frame }).post_time = frame.post_time ∧
    ({ frame with local_file := newLocalPath cfg frame }).reactions_total
        = frame.reactions_total ∧
    newLocalPath cfg frame = cfg.frames_dir ++ "/" ++ baseName frame.local_file := by
  refine ⟨rfl, rfl, rfl, ?_, rfl, rfl, rfl, rfl, rfl, rfl, rfl, rfl⟩
  simp [afterFrameUpload, queueFrameForCheck]

/-- The drain loop of `_handle_quicker` preserves the time threshold,
returns only with an empty queue, and the only sleeps it adds last 3600
seconds. -/
theorem quickLoop_spec (env : Env) (cfg : BestOfConfig) :
    ∀ (nows : List ℤ) (s r : BestOfState),
      quickLoop env cfg nows s = some r →
      r.yet_to_check = [] ∧ r.time_threshold = s.time_threshold ∧
      (∀ t : ℤ, Event.sleep t ∈ r.trace → Event.sleep t ∈ s.trace ∨ t = 3600) := by
  intro nows
  induction nows with
  | nil =>
    intro s r h
    simp only [quickLoop] at h
    split_ifs at h with hemp
    · cases h
      exact ⟨List.isEmpty_iff.mp hemp, rfl, fun t ht => Or.inl ht⟩
  | cons now rest ih =>
    intro s r h
    simp only [quickLoop] at h
    split_ifs at h with hemp hemp2
    · cases h
      exact ⟨List.isEmpty_iff.mp hemp, rfl, fun t ht => Or.inl ht⟩
    · obtain ⟨h1, h2, h3⟩ := ih _ r h
      refine ⟨h1, by rw [h2, advanceBests_time_threshold], ?_⟩
      intro t ht
      rcases h3 t ht with h4 | h4
      · rw [advanceBests_trace] at h4
        rcases List.mem_append.mp h4 with h5 | h5
        · exact Or.inl h5
        · exact absurd h5 (sleep_not_mem_advanceBestsEvents env cfg now s t)
      · exact Or.inr h4
    · obtain ⟨h1, h2, h3⟩ := ih _ r h
      refine ⟨h1, by rw [h2]; exact advanceBests_time_threshold env cfg now s, ?_⟩
      intro t ht
      rcases h3 t ht with h4 | h4
      · simp only [advanceBests_trace, List.append_assoc, List.mem_append] at h4
        rcases h4 with h5 | h5 | h5
        · exact Or.inl h5
        · exact absurd h5 (sleep_not_mem_advanceBestsEvents env cfg now s t)
        · simp at h5
          exact Or.inr h5
      · exact Or.inr h4

/-- Claim C7: the `after_upload_loop` hook halves the time threshold
exactly once, then repeatedly drains; whenever it returns, the queue has
become empty, the threshold of the returned state is half the original
(never halved again), and every sleep it performed lasted the fixed
one-hour interval; conversely, with an already-empty queue it returns at
once with only the threshold halved. -/
theorem claim7_shutdown_drain (env : Env) (cfg : BestOfConfig) (nows : List ℤ)
    (s : BestOfState) :
    (∀ r, afterUploadLoop env cfg nows s = some r →
        r.yet_to_check = [] ∧ r.time_threshold = s.time_threshold / 2 ∧
        (∀ t : ℤ, Event.sleep t ∈ r.trace → Event.sleep t ∈ s.trace ∨ t = 3600)) ∧
    (s.yet_to_check = [] →
        afterUploadLoop env cfg nows s
          = some { s with time_threshold := s.time_threshold / 2 }) := by
  constructor
  · intro r h
    exact quickLoop_spec env cfg nows _ r h
  · intro hemp
    cases nows <;>
      simp [afterUploadLoop, handleQuicker, quickLoop, hemp]

/-- Witness for C7 at a concrete state: an empty queue returns at once
with the threshold halved, and the returned state indeed has an empty
queue and halved threshold. -/
theorem claim7_witness :
    afterUploadLoop happyEnv cfgS [] stateEmpty
      = some { stateEmpty with time_threshold := stateEmpty.time_threshold / 2 } ∧
    ({ stateEmpty with time_threshold := stateEmpty.time_threshold / 2 } : BestOfState).yet_to_check
      = [] ∧
    ({ stateEmpty with time_threshold := stateEmpty.time_threshold / 2 } : BestOfState).time_threshold
      = stateEmpty.time_threshold / 2 :=
  ⟨(claim7_shutdown_drain happyEnv cfgS [] stateEmpty).2 rfl,
   ((claim7_shutdown_drain happyEnv cfgS [] stateEmpty).1 _
      ((claim7_shutdown_drain happyEnv cfgS [] stateEmpty).2 rfl)).1,
   ((claim7_shutdown_drain happyEnv cfgS [] stateEmpty).1 _
      ((claim7_shutdown_drain happyEnv cfgS [] stateEmpty).2 rfl)).2.1⟩

/-- A registered plugin, reduced to what the dependency contract of
`FramebotPlugin.__init__` (`plugins.py` lines 29-47) stores: the
plugin's type and the plugin types declared in `depends_on`. -/
structure PluginSpec where
  ptype : Nat
  deps : List Nat
deriving DecidableEq

/-- Modelled from the spec: the hook-invoking scheduler of the framebot
core is not under `src/` — `plugins.py` only stores `depends_on` (its
docstring even marks the ordering behavior as yet to be implemented).
Per the spec, at each of the four hook points a plugin's hook runs after
the hooks of every plugin type it depends on, registration order
otherwise preserved.  `ready p rem` holds when no still-unscheduled
plugin has a type `p` depends on. -/
def ready (p : PluginSpec) (rem : List PluginSpec) : Bool :=
  rem.all (fun q => decide (q.ptype ∉ p.deps))

/-- Modelled from the spec: pick the first registered plugin whose
declared dependencies have all been scheduled; the remaining plugins
keep their registration order. -/
def extractReady : List PluginSpec → List PluginSpec → Option (PluginSpec × List PluginSpec)
  | _, [] => none
  | acc, p :: rest =>
    if ready p (acc ++ rest) then some (p, acc ++ rest)
    else extractReady (acc ++ [p]) rest

/-- Modelled from the spec: the hook invocation order — repeatedly emit
the first ready plugin; with unsatisfiable (cyclic) declarations, fall
back to the remaining registration order. -/
def scheduleHooks : Nat → List PluginSpec → List PluginSpec
  | 0, ps => ps
  | fuel + 1, ps =>
    match extractReady [] ps with
    | none => ps
    | some (p, rest) => p :: scheduleHooks fuel rest

/-- The order in which the modelled host invokes the plugins' hooks at
each of the four hook points. -/
def hookOrder (ps : List PluginSpec) : List PluginSpec := scheduleHooks ps.length ps

/-- Whether the dependency-respecting scheduling ran to completion
without getting stuck on unsatisfiable declarations. -/
def scheduleOk : Nat → List PluginSpec → Bool
  | 0, ps => ps.isEmpty
  | fuel + 1, ps =>
    match extractReady [] ps with
    | none => ps.isEmpty
    | some (_, rest) => scheduleOk fuel rest

/-- `scheduleOk` at the fuel used by `hookOrder`. -/
def hookOrderOk (ps : List PluginSpec) : Bool := scheduleOk ps.length ps

theorem ready_not_dep (p : PluginSpec) (rem : List PluginSpec)
    (h : ready p rem = true) : ∀ q ∈ rem, q.ptype ∉ p.deps := by
  intro q hq
  have hall := List.all_eq_true.mp h q hq
  simpa using hall

theorem extractReady_perm :
    ∀ (l acc : List PluginSpec) (p : PluginSpec) (rest : List PluginSpec),
      extractReady acc l = some (p, rest) →
      (acc ++ l).Perm (p :: rest) ∧ ready p rest = true := by
  intro l
  induction l with
  | nil => intro acc p rest h; cases h
  | cons x t ih =>
    intro acc p rest h
    simp only [extractReady] at h
    split_ifs at h with hr
    · cases h
      exact ⟨List.perm_middle, hr⟩
    · obtain ⟨h1, h2⟩ := ih (acc ++ [x]) p rest h
      refine ⟨?_, h2⟩
      have hshape : acc ++ x :: t = (acc ++ [x]) ++ t := by simp
      rw [hshape]
      exact h1

theorem scheduleHooks_spec :
    ∀ (fuel : Nat) (ps : List PluginSpec), scheduleOk fuel ps = true →
      (scheduleHooks fuel ps).Perm ps ∧
      List.Pairwise (fun p q => q.ptype ∉ p.deps) (scheduleHooks fuel ps) := by
  intro fuel
  induction fuel with
  | zero =>
    intro ps h
    have hnil : ps = [] := List.isEmpty_iff.mp h
    subst hnil
    exact ⟨List.Perm.refl _, List.Pairwise.nil⟩
  | succ fuel ih =>
    intro ps h
    rcases he : extractReady [] ps with _ | ⟨p, rest⟩
    · simp only [scheduleOk, he] at h
      simp only [scheduleHooks, he]
      have hnil : ps = [] := List.isEmpty_iff.mp h
      subst hnil
      exact ⟨List.Perm.refl _, List.Pairwise.nil⟩
    · simp only [scheduleOk, he] at h
      simp only [scheduleHooks, he]
      obtain ⟨hperm, hready⟩ := extractReady_perm ps [] p rest he
      obtain ⟨ihp, ihpw⟩ := ih rest h
      constructor
      · exact (List.Perm.cons p ihp).trans hperm.symm
      · refine List.Pairwise.cons ?_ ihpw
        intro q hq
        exact ready_not_dep p rest hready q (ihp.mem_iff.mp hq)

theorem scheduleHooks_no_deps :
    ∀ (fuel : Nat) (ps : List PluginSpec), ps.length ≤ fuel →
      (∀ p ∈ ps, p.deps = []) → scheduleHooks fuel ps = ps := by
  intro fuel
  induction fuel with
  | zero => intro ps _ _; rfl
  | succ fuel ih =>
    intro ps hlen hdeps
    cases ps with
    | nil => rfl
    | cons x t =>
      have hx : x.deps = [] := hdeps x (by simp)
      have hready : ready x ([] ++ t) = true := by
        simp [ready, hx]
      have hex : extractReady [] (x :: t) = some (x, t) := by
        simp only [extractReady]
        rw [if_pos hready]
        simp
      have ht := ih t (by simpa using Nat.le_of_succ_le_succ hlen)
        (fun p hp => hdeps p (by simp [hp]))
      simp only [scheduleHooks, hex]
      rw [ht]

/-- Claim C8 (hook dispatch modelled from the spec, see `ready`): when
the dependency declarations are satisfiable (`hookOrderOk`), the hook
invocation order used at each of the four hook points runs every
registered plugin exactly once (a permutation of the registration list)
and runs each plugin after every plugin whose type it declares in
`depends_on` (no later plugin's type occurs among an earlier plugin's
dependencies); when no plugin declares dependencies, the order is
exactly the registration order. -/
theorem claim8_hook_dependency_order (ps : List PluginSpec) :
    (hookOrderOk ps = true →
        (hookOrder ps).Perm ps ∧
        List.Pairwise (fun p q => q.ptype ∉ p.deps) (hookOrder ps)) ∧
    ((∀ p ∈ ps, p.deps = []) → hookOrder ps = ps) := by
  constructor
  · intro h
    exact scheduleHooks_spec ps.length ps h
  · intro h
    exact scheduleHooks_no_deps ps.length ps le_rfl h

/-- Witness for C8: a concrete dependent pair is scheduled respecting
the dependency, and an independent registration order is preserved. -/
theorem claim8_witness :
    List.Pairwise (fun p q => q.ptype ∉ p.deps) (hookOrder [⟨1, [2]⟩, ⟨2, []⟩]) ∧
    hookOrder [⟨3, []⟩, ⟨4, []⟩] = [⟨3, []⟩, ⟨4, []⟩] :=
  ⟨((claim8_hook_dependency_order [⟨1, [2]⟩, ⟨2, []⟩]).1 (by decide)).2,
   (claim8_hook_dependency_order [⟨3, []⟩, ⟨4, []⟩]).2 (by decide)⟩

/-- The default mirroring chance parameter of `MirroredFramePoster`
(`ratio = 0.5`, `plugins.py` line 217), as an exact rational. -/
def defaultRatio : ℚ := 1 / 2

/-- The probability-check threshold `1 - ratio / 100` of
`MirroredFramePoster.after_frame_upload` (`plugins.py` line 264). -/
def mirrorThreshold (r100 : ℚ) : ℚ := 1 - r100 / 100

/-- The posting decision of `MirroredFramePoster.after_frame_upload`
(`plugins.py` lines 263-266): a mirrored frame is posted exactly when
the sampled `random()` value `rnd` is strictly greater than
`1 - ratio / 100`. -/
def mirrorPosts (r100 rnd : ℚ) : Bool := decide (mirrorThreshold r100 < rnd)

/-- Claim C9: the mirror plugin posts exactly when
`random() > 1 - ratio / 100`; treating `random()` as uniform on
`[0, 1)`, the posting probability is `ratio / 100` — not `ratio` — and
with the default `ratio = 0.5` a mirror is posted only when
`random() > 0.995`. -/
theorem claim9_mirror_probability (r100 rnd : ℚ) :
    (mirrorPosts r100 rnd = true ↔ 1 - r100 / 100 < rnd) ∧
    (mirrorPosts defaultRatio rnd = true ↔ (199 / 200 : ℚ) < rnd) ∧
    (0 ≤ r100 → r100 ≤ 100 →
        MeasureTheory.volume
            {x : ℝ | x ∈ Set.Ico (0 : ℝ) 1 ∧ ((mirrorThreshold r100 : ℚ) : ℝ) < x}
          = ENNReal.ofReal ((r100 : ℝ) / 100)) := by
  refine ⟨by simp [mirrorPosts, mirrorThreshold], ?_, ?_⟩
  · simp only [mirrorPosts, mirrorThreshold, defaultRatio, decide_eq_true_eq]
    norm_num
  · intro h0 h100
    have hth0 : (0 : ℝ) ≤ ((mirrorThreshold r100 : ℚ) : ℝ) := by
      have h100R : (r100 : ℝ) ≤ 100 := by exact_mod_cast h100
      have : ((mirrorThreshold r100 : ℚ) : ℝ) = 1 - (r100 : ℝ) / 100 := by
        push_cast [mirrorThreshold]
        ring
      rw [this]
      linarith
    have hset : {x : ℝ | x ∈ Set.Ico (0 : ℝ) 1 ∧ ((mirrorThreshold r100 : ℚ) : ℝ) < x}
        = Set.Ioo ((mirrorThreshold r100 : ℚ) : ℝ) 1 := by
      ext x
      simp only [Set.mem_setOf_eq, Set.mem_Ico, Set.mem_Ioo]
      constructor
      · rintro ⟨⟨hx0, hx1⟩, hxt⟩
        exact ⟨hxt, hx1⟩
      · rintro ⟨hxt, hx1⟩
        exact ⟨⟨le_trans hth0 (le_of_lt hxt), hx1⟩, hxt⟩
    rw [hset, Real.volume_Ioo]
    congr 1
    push_cast [mirrorThreshold]
    ring

/-- Witness for C9: with the default ratio, `random() = 0.999` posts a
mirror, and the posting set over `[0, 1)` has measure `0.5 / 100`. -/
theorem claim9_witness :
    mirrorPosts defaultRatio (999 / 1000) = true ∧
    MeasureTheory.volume
        {x : ℝ | x ∈ Set.Ico (0 : ℝ) 1 ∧ ((mirrorThreshold defaultRatio : ℚ) : ℝ) < x}
      = ENNReal.ofReal ((defaultRatio : ℝ) / 100) :=
  ⟨(claim9_mirror_probability defaultRatio (999 / 1000)).2.1.mpr (by norm_num),
   (claim9_mirror_probability defaultRatio 0).2.2 (by norm_num [defaultRatio])
     (by norm_num [defaultRatio])⟩

end Framebot
